import Mathlib

/-!
Verification of the time-rotating logger (timeRotating.go) of EasyLogger.

Go strings are modelled as lists of characters; machine integers as Int or
Nat (no arithmetic in the verified claims can overflow int64 ranges that the
source relies on); filesystem effects (stat, mkdir, directory scans, file
opens, removals, compressions) are modelled as explicit oracles packaged in
an Fs structure, and the Logger struct's mutable fields are threaded as
explicit state.
-/

set_option maxHeartbeats 1000000

namespace EasyLogger

/-- Go strings modelled as lists of characters. -/
abbrev GoStr := List Char

/-- Go error values; only identity matters, so an error is its message. -/
abbrev GoErr := GoStr

/-- Constant FileNameExt = ".log" from timeRotating.go. -/
def FileNameExt : GoStr := ['.', 'l', 'o', 'g']

/-- Constant CompressSuffix = ".gz" from timeRotating.go. -/
def CompressSuffix : GoStr := ['.', 'g', 'z']

/-- Constant DefaultLogDir = "./Logs/" from timeRotating.go. -/
def DefaultLogDir : GoStr := ['.', '/', 'L', 'o', 'g', 's', '/']

/-- Constant NanosecondPerDay = 24 * 3600 * time.Second, in nanoseconds. -/
def nanosecondPerDay : Int := 24 * 3600 * 1000000000

/-- A calendar date, the day-granularity content of the fixed name format
FileNameTimeFormat = "2006-01-02". -/
structure Date where
  year : Nat
  month : Nat
  day : Nat
deriving DecidableEq, Repr

/-- A Go time.Time at the granularity the logger observes: its calendar date
under the configured zone plus the sub-day remainder in nanoseconds. -/
structure GoTime where
  date : Date
  nsOfDay : Nat
deriving DecidableEq, Repr

/-- Gregorian leap-year rule, as used by Go's time package when validating a
parsed calendar date. -/
def isLeapYear (y : Nat) : Bool :=
  decide (y % 4 = 0 ∧ (¬ y % 100 = 0 ∨ y % 400 = 0))

/-- Number of days in a month, as used by Go's time.Parse date validation. -/
def daysInMonth (y m : Nat) : Nat :=
  if m = 2 then (if isLeapYear y then 29 else 28)
  else if m = 4 ∨ m = 6 ∨ m = 9 ∨ m = 11 then 30
  else 31

/-- The dates representable in the fixed name format "2006-01-02": four-digit
year, valid month, day valid for that month and year. -/
def ValidDate (d : Date) : Prop :=
  d.year ≤ 9999 ∧ 1 ≤ d.month ∧ d.month ≤ 12 ∧ 1 ≤ d.day ∧
    d.day ≤ daysInMonth d.year d.month

instance (d : Date) : Decidable (ValidDate d) := by
  unfold ValidDate; infer_instance

/-- The decimal digit character for a value below ten. -/
def digitChar : Nat → Char
  | 0 => '0'
  | 1 => '1'
  | 2 => '2'
  | 3 => '3'
  | 4 => '4'
  | 5 => '5'
  | 6 => '6'
  | 7 => '7'
  | 8 => '8'
  | 9 => '9'
  | _ => '0'

/-- Numeric value of a decimal digit character; none for other characters. -/
def digitVal (c : Char) : Option Nat :=
  if '0' ≤ c ∧ c ≤ '9' then some (c.toNat - '0'.toNat) else none

/-- Two-digit zero-padded decimal rendering ("01" style fields of the Go
format string). -/
def pad2 (n : Nat) : GoStr := [digitChar (n / 10 % 10), digitChar (n % 10)]

/-- Four-digit zero-padded decimal rendering (the "2006" year field of the Go
format string, for years up to 9999). -/
def pad4 (n : Nat) : GoStr :=
  [digitChar (n / 1000 % 10), digitChar (n / 100 % 10),
   digitChar (n / 10 % 10), digitChar (n % 10)]

/-- t.Format(FileNameTimeFormat): render a date as YYYY-MM-DD. -/
def formatDate (d : Date) : GoStr :=
  pad4 d.year ++ ('-' :: pad2 d.month) ++ ('-' :: pad2 d.day)

/-- Fixed-width two-digit numeric field of time.Parse. -/
def parse2 (a b : Char) : Option Nat :=
  match digitVal a, digitVal b with
  | some x, some y => some (x * 10 + y)
  | _, _ => none

/-- Fixed-width four-digit numeric field of time.Parse. -/
def parse4 (a b c d : Char) : Option Nat :=
  match digitVal a, digitVal b, digitVal c, digitVal d with
  | some x1, some x2, some x3, some x4 =>
      some (((x1 * 10 + x2) * 10 + x3) * 10 + x4)
  | _, _, _, _ => none

/-- time.Parse(FileNameTimeFormat, s): accept exactly YYYY-MM-DD with the
month and day validated against the calendar, rejecting everything else. -/
def parseDate (s : GoStr) : Option Date :=
  match s with
  | [y1, y2, y3, y4, s1, m1, m2, s2, d1, d2] =>
      if s1 = '-' ∧ s2 = '-' then
        match parse4 y1 y2 y3 y4, parse2 m1 m2, parse2 d1 d2 with
        | some y, some m, some d =>
            if 1 ≤ m ∧ m ≤ 12 ∧ 1 ≤ d ∧ d ≤ daysInMonth y m then
              some ⟨y, m, d⟩
            else none
        | _, _, _ => none
      else none
  | _ => none

/-- strings.HasSuffix. -/
def hasSuffix (s suffix : GoStr) : Bool := decide (suffix <:+ s)

/-- The slice fn[:len(fn)-len(suffix)] used to strip a suffix. -/
def trimSuffix (s suffix : GoStr) : GoStr := s.take (s.length - suffix.length)

/-- The base name produced by newFileName for current time t: the date of t
(under the configured zone) formatted as YYYY-MM-DD plus the ".log"
extension.  The directory prefix added by filepath.Join is handled by the
threaded model below. -/
def newFileNameBase (t : GoTime) : GoStr := formatDate t.date ++ FileNameExt

/-- timeFromName: reject the name unless it carries the given extension,
strip the extension, and parse the rest with time.Parse, which yields a time
at midnight of the decoded day. -/
def timeFromName (filename ext : GoStr) : Option GoTime :=
  if hasSuffix filename ext then
    match parseDate (trimSuffix filename ext) with
    | some d => some ⟨d, 0⟩
    | none => none
  else none

/-- A decoded directory entry (struct logInfo): the file's base name and the
timestamp decoded from the name, in nanoseconds. -/
structure LogInfo where
  name : GoStr
  timestamp : Int
deriving DecidableEq, Repr

/-- The dedup key of millRunOnce's deletion step: the name with the ".gz"
suffix stripped when present, so a compressed and an uncompressed form of the
same rotated file count once. -/
def logicalName (f : LogInfo) : GoStr :=
  if hasSuffix f.name CompressSuffix then trimSuffix f.name CompressSuffix
  else f.name

/-- The distinct members of a list, in first-occurrence order, ignoring those
already in seen.  Spec-side device used to state the retention bound. -/
def distinctFrom (seen : List GoStr) : List GoStr → List GoStr
  | [] => []
  | n :: ns =>
      if n ∈ seen then distinctFrom seen ns
      else n :: distinctFrom (n :: seen) ns

/-- The deletion loop of millRunOnce: walk the (newest-first) file list,
record each logical name in the preserved set, and route the file to the
remaining list while at most MaxBackups logical names have been seen, and to
the remove list afterwards.  The Go map preserved is modelled as a
duplicate-free list, whose length is the map's size. -/
def millSplit (maxBackups : Int) :
    List LogInfo → List GoStr → List LogInfo × List LogInfo
  | [], _ => ([], [])
  | f :: rest, preserved =>
      let fn := logicalName f
      let preserved' := if fn ∈ preserved then preserved else fn :: preserved
      let r := millSplit maxBackups rest preserved'
      if maxBackups < (preserved'.length : Int) then (r.1, f :: r.2)
      else (f :: r.1, r.2)

/-- The files millRunOnce leaves in place after its deletion step: the loop
runs only when MaxBackups is positive and exceeded, otherwise every file
stays. -/
def millRemaining (maxBackups : Int) (files : List LogInfo) : List LogInfo :=
  if 0 < maxBackups ∧ maxBackups < (files.length : Int) then
    (millSplit maxBackups files []).1
  else files

/-- The files millRunOnce marks for removal in its deletion step. -/
def millRemove (maxBackups : Int) (files : List LogInfo) : List LogInfo :=
  if 0 < maxBackups ∧ maxBackups < (files.length : Int) then
    (millSplit maxBackups files []).2
  else []

/-- The compression-marking step of millRunOnce: temp := files[1:] and every
entry of temp whose name does not already end in ".gz" is marked.  In Go,
slicing an empty slice from index one panics, which the none result
records; a nonempty list yields the marks. -/
def millCompressMarks (files : List LogInfo) : Option (List LogInfo) :=
  match files with
  | [] => none
  | _ :: rest => some (rest.filter (fun f => !(hasSuffix f.name CompressSuffix)))

/-- The name a kept file carries after the mill pass executed the given
compression marks: compressLogFile writes name + ".gz" and removes the
original, unmarked files keep their name. -/
def afterMill (marks : List LogInfo) (f : LogInfo) : GoStr :=
  if f ∈ marks then f.name ++ CompressSuffix else f.name

/-- The mutable state of the Logger struct: the five configuration fields
(Directory is mutable because dir() reassigns it), the current file handle
as the opened path (none models a nil *os.File), and the content of the
buffered depth-one mill channel. -/
structure Logger where
  directory : GoStr
  maxDays : Int
  maxBackups : Int
  localTime : Bool
  compress : Bool
  currentFile : Option GoStr
  millPending : Bool
deriving DecidableEq, Repr

/-- Outcome of osStat on a path, at the granularity dir() inspects: the
error is either reported by os.IsNotExist or not, and a successful stat
tells whether the path is a directory. -/
inductive StatRes where
  | notExist
  | otherErr
  | file
  | dir
deriving DecidableEq, Repr

/-- Oracles for every filesystem and clock interaction of one operation.
scan is the decoded, newest-first sorted result of oldLogFiles' directory
read; the open, remove, compress and close oracles give each call's error
outcome; now and today are the clock readings (today the calendar view of
now under the configured zone). -/
structure Fs where
  stat : GoStr → StatRes
  mkdirFails : GoStr → Bool
  scan : Except GoErr (List LogInfo)
  openAppendErr : GoStr → Option GoErr
  openCreateTruncErr : GoStr → Option GoErr
  writeRes : GoStr → Nat × Option GoErr
  closeErr : GoStr → Option GoErr
  removeErr : GoStr → Option GoErr
  compressErr : GoStr → Option GoErr
  now : Int
  today : GoTime

/-- dir(): stat the configured directory; when it does not exist try to
create it and on failure fall back to DefaultLogDir; when it exists but is
not a directory fall back to DefaultLogDir; a stat error that is not
IsNotExist leaves the field alone.  Returns the updated state and the path
the caller uses. -/
def dirStep (fs : Fs) (l : Logger) : Logger × GoStr :=
  match fs.stat l.directory with
  | .notExist =>
      if fs.mkdirFails l.directory then
        ({ l with directory := DefaultLogDir }, DefaultLogDir)
      else (l, l.directory)
  | .otherErr => (l, l.directory)
  | .file => ({ l with directory := DefaultLogDir }, DefaultLogDir)
  | .dir => (l, l.directory)

/-- mill(): start the mill goroutine once and send a coalescing signal on
the buffered depth-one channel; whether the slot was empty or full, it holds
a signal afterwards. -/
def mill (l : Logger) : Logger := { l with millPending := true }

/-- filepath.Join of the directory and a base name, modelled as
concatenation; the path-cleaning filepath.Join performs is irrelevant to
every claim, which only compare whole paths for identity. -/
def joinPath (dir name : GoStr) : GoStr := dir ++ name

/-- oldLogFiles up to decoding: ReadDir(l.dir()) updates the state through
dir() and yields the oracle's decoded, sorted scan. -/
def oldLogFiles (fs : Fs) (l : Logger) :
    Logger × Except GoErr (List LogInfo) :=
  ((dirStep fs l).1, fs.scan)

/-- newFileName: today's date under the configured zone, formatted and given
the ".log" extension, joined to l.dir(). -/
def newFileName (fs : Fs) (l : Logger) : Logger × GoStr :=
  let r := dirStep fs l
  (r.1, joinPath r.2 (newFileNameBase fs.today))

/-- openNew: open the newFileName path with O_CREATE, O_WRONLY and O_TRUNC
(truncating any same-named leftover), store the handle and signal the
mill; an open failure is returned and leaves no file open. -/
def openNew (fs : Fs) (l : Logger) : Logger × Option GoErr :=
  let r := newFileName fs l
  match fs.openCreateTruncErr r.2 with
  | some e => (r.1, some e)
  | none => (mill { r.1 with currentFile := some r.2 }, none)

/-- openExistingOrNew: scan the directory; on a scan error return it; when
the newest decoded file is strictly younger than MaxDays days it is opened
with O_APPEND and O_WRONLY and becomes the current file with no mill signal;
otherwise openNew runs. -/
def openExistingOrNew (fs : Fs) (l : Logger) : Logger × Option GoErr :=
  let sc := oldLogFiles fs l
  match sc.2 with
  | .error e => (sc.1, some e)
  | .ok allFiles =>
      match allFiles with
      | latest :: _ =>
          if fs.now - latest.timestamp < sc.1.maxDays * nanosecondPerDay then
            let r := dirStep fs sc.1
            match fs.openAppendErr (r.2 ++ latest.name) with
            | some e => (r.1, some e)
            | none =>
                ({ r.1 with currentFile := some (r.2 ++ latest.name) }, none)
          else openNew fs sc.1
      | [] => openNew fs sc.1

/-- Write: under the lock, open a file through openExistingOrNew when none
is open, surfacing its error with a zero count; then delegate to the current
file's Write. -/
def write (fs : Fs) (l : Logger) : Logger × Nat × Option GoErr :=
  match l.currentFile with
  | none =>
      let r := openExistingOrNew fs l
      match r.2 with
      | some e => (r.1, 0, some e)
      | none =>
          match r.1.currentFile with
          | some f => (r.1, (fs.writeRes f).1, (fs.writeRes f).2)
          | none => (r.1, 0, none)
  | some f => (l, (fs.writeRes f).1, (fs.writeRes f).2)

/-- Iterated Write calls, one oracle per call. -/
def writeMany (fss : List Fs) (l : Logger) : Logger :=
  match fss with
  | [] => l
  | fs :: rest => writeMany rest (write fs l).1

/-- Close (and the unexported close it delegates to under the lock): a nil
current file returns nil at once; otherwise the file is closed, its error
returned, and the handle cleared. -/
def closeLogger (fs : Fs) (l : Logger) : Logger × Option GoErr :=
  match l.currentFile with
  | none => (l, none)
  | some f => ({ l with currentFile := none }, fs.closeErr f)

/-- One executed mill action, recorded by the file's base name. -/
inductive MillAction where
  | del (name : GoStr)
  | comp (name : GoStr)
deriving DecidableEq, Repr

/-- The removal loop of millRunOnce: os.Remove(filepath.Join(l.dir(),
f.Name())) for each marked file, keeping the first error and continuing;
each iteration goes through dir() and so threads the state. -/
def runRemoves (fs : Fs) :
    Logger → List LogInfo → Option GoErr →
      Logger × Option GoErr × List MillAction
  | l, [], err => (l, err, [])
  | l, f :: rest, err =>
      let r := dirStep fs l
      let err' := match err, fs.removeErr f.name with
        | none, some e => some e
        | e, _ => e
      let t := runRemoves fs r.1 rest err'
      (t.1, t.2.1, .del f.name :: t.2.2)

/-- The compression loop of millRunOnce: compressLogFile(fn, fn + ".gz") for
each marked file, keeping the first error and continuing; each iteration
goes through dir(). -/
def runCompresses (fs : Fs) :
    Logger → List LogInfo → Option GoErr →
      Logger × Option GoErr × List MillAction
  | l, [], err => (l, err, [])
  | l, f :: rest, err =>
      let r := dirStep fs l
      let err' := match err, fs.compressErr f.name with
        | none, some e => some e
        | e, _ => e
      let t := runCompresses fs r.1 rest err'
      (t.1, t.2.1, .comp f.name :: t.2.2)

/-- The execution phase of millRunOnce: all removals first, then all
compressions, the error accumulator flowing from the one loop into the
other, and the performed actions recorded in order. -/
def millExec (fs : Fs) (l : Logger) (remove marks : List LogInfo) :
    Logger × Option GoErr × List MillAction :=
  let r1 := runRemoves fs l remove none
  let r2 := runCompresses fs r1.1 marks r1.2.1
  (r2.1, r2.2.1, r1.2.2 ++ r2.2.2)

/-- How one mill pass ends: normally, with the first error met (if any) and
the actions executed, or in a Go runtime panic. -/
inductive MillOutcome where
  | panicked
  | done (err : Option GoErr) (actions : List MillAction)
deriving DecidableEq, Repr

/-- millRunOnce: nothing to do when MaxBackups is zero and compression is
off; a scan error is returned; otherwise the deletion split and (when
compression is on) the files[1:] marking run, the latter panicking when the
scan decoded no file; finally the marked actions execute. -/
def millRunOnce (fs : Fs) (l : Logger) : Logger × MillOutcome :=
  if l.maxBackups = 0 ∧ l.compress = false then (l, .done none [])
  else
    let sc := oldLogFiles fs l
    match sc.2 with
    | .error e => (sc.1, .done (some e) [])
    | .ok files =>
        let remove := millRemove l.maxBackups files
        if l.compress then
          match millCompressMarks (millRemaining l.maxBackups files) with
          | none => (sc.1, .panicked)
          | some marks =>
              let r := millExec fs sc.1 remove marks
              (r.1, .done r.2.1 r.2.2)
        else
          let r := millExec fs sc.1 remove []
          (r.1, .done r.2.1 r.2.2)

/-- First-error accumulation: a pending error wins, otherwise the new one. -/
def firstSome (a b : Option GoErr) : Option GoErr :=
  match a with
  | some e => some e
  | none => b

/-- The frame property the configuration enjoys across an operation: the
four plain configuration fields are unchanged and Directory is either
unchanged or was replaced by the DefaultLogDir fallback of dir(). -/
def configPreserved (l l' : Logger) : Prop :=
  l'.maxDays = l.maxDays ∧ l'.maxBackups = l.maxBackups ∧
    l'.localTime = l.localTime ∧ l'.compress = l.compress ∧
    (l'.directory = l.directory ∨ l'.directory = DefaultLogDir)

/-- A benign filesystem oracle used by concrete witnesses: everything
succeeds, the directory exists, the scan decodes one file of the first of
September 2021, and the clock stands one nanosecond after that file's
timestamp. -/
def okFs : Fs where
  stat := fun _ => .dir
  mkdirFails := fun _ => false
  scan := .ok [⟨['2', '0', '2', '1', '-', '0', '9', '-', '0', '1',
                 '.', 'l', 'o', 'g'], 5⟩]
  openAppendErr := fun _ => none
  openCreateTruncErr := fun _ => none
  writeRes := fun _ => (3, none)
  closeErr := fun _ => none
  removeErr := fun _ => none
  compressErr := fun _ => none
  now := 6
  today := ⟨⟨2021, 9, 1⟩, 0⟩

/-- A logger fixture with an open file, used by concrete witnesses. -/
def okLogger : Logger where
  directory := DefaultLogDir
  maxDays := 1
  maxBackups := 2
  localTime := false
  compress := false
  currentFile := some (['a', '.', 'l', 'o', 'g'])
  millPending := false

/-- The okLogger fixture with no file open. -/
def idleLogger : Logger :=
  { okLogger with currentFile := none }

/-- A filesystem oracle whose directory scan decodes no log file at all,
the case an empty (but readable) log directory produces. -/
def emptyScanFs : Fs :=
  { okFs with scan := .ok [] }

/-- A logger configured with compression on and no backup bound, as the
public constructor permits. -/
def compressingLogger : Logger :=
  { idleLogger with maxBackups := 0, compress := true }

/-- A filesystem oracle whose configured path exists but is a plain file,
forcing the dir() fallback. -/
def badDirFs : Fs :=
  { okFs with stat := fun _ => .file, scan := .ok [] }

/-- A logger whose configured Directory is a path that turns out not to be
a directory. -/
def badDirLogger : Logger :=
  { idleLogger with directory := ['x'] }

lemma digitVal_digitChar (k : Nat) (hk : k < 10) :
    digitVal (digitChar k) = some k := by
  interval_cases k <;> decide

lemma daysInMonth_le_31 (y m : Nat) : daysInMonth y m ≤ 31 := by
  unfold daysInMonth
  split_ifs <;> omega

lemma parseDate_formatDate (d : Date) (h : ValidDate d) :
    parseDate (formatDate d) = some d := by
  obtain ⟨hy, hm1, hm2, hd1, hd2⟩ := h
  have hd31 : d.day ≤ 31 := le_trans hd2 (daysInMonth_le_31 _ _)
  have e1 := digitVal_digitChar (d.year / 1000 % 10) (Nat.mod_lt _ (by omega))
  have e2 := digitVal_digitChar (d.year / 100 % 10) (Nat.mod_lt _ (by omega))
  have e3 := digitVal_digitChar (d.year / 10 % 10) (Nat.mod_lt _ (by omega))
  have e4 := digitVal_digitChar (d.year % 10) (Nat.mod_lt _ (by omega))
  have f1 := digitVal_digitChar (d.month / 10 % 10) (Nat.mod_lt _ (by omega))
  have f2 := digitVal_digitChar (d.month % 10) (Nat.mod_lt _ (by omega))
  have g1 := digitVal_digitChar (d.day / 10 % 10) (Nat.mod_lt _ (by omega))
  have g2 := digitVal_digitChar (d.day % 10) (Nat.mod_lt _ (by omega))
  have hy' : ((d.year / 1000 % 10 * 10 + d.year / 100 % 10) * 10 +
      d.year / 10 % 10) * 10 + d.year % 10 = d.year := by omega
  have hm' : d.month / 10 % 10 * 10 + d.month % 10 = d.month := by omega
  have hd' : d.day / 10 % 10 * 10 + d.day % 10 = d.day := by omega
  simp only [formatDate, pad4, pad2, List.cons_append, List.nil_append,
    parseDate, parse4, parse2, e1, e2, e3, e4, f1, f2, g1, g2]
  rw [hy', hm', hd']
  rw [if_pos (by constructor <;> trivial), if_pos ⟨hm1, hm2, hd1, hd2⟩]

/-- Claim C1: naming round-trip.  For every calendar date representable in
the fixed name format, parsing the base file name produced by newFileName
(formatted date plus ".log") back through timeFromName with the ".log"
extension succeeds and yields the same date at day granularity, with the
sub-day precision of the input time discarded (the parsed time is midnight
of that day). -/
theorem naming_round_trip (t : GoTime) (h : ValidDate t.date) :
    timeFromName (newFileNameBase t) FileNameExt = some ⟨t.date, 0⟩ := by
  have h1 : hasSuffix (formatDate t.date ++ FileNameExt) FileNameExt = true := by
    simp [hasSuffix, List.suffix_append]
  have h2 : trimSuffix (formatDate t.date ++ FileNameExt) FileNameExt
      = formatDate t.date := by
    simp [trimSuffix, List.length_append]
  unfold timeFromName newFileNameBase
  rw [h1, h2, parseDate_formatDate t.date h]
  rfl

/-- Witness for C1 at a concrete date with nonzero sub-day precision. -/
theorem naming_round_trip_witness :
    ValidDate ⟨2021, 9, 1⟩ ∧
      timeFromName (newFileNameBase ⟨⟨2021, 9, 1⟩, 555⟩) FileNameExt
        = some ⟨⟨2021, 9, 1⟩, 0⟩ :=
  ⟨by decide, naming_round_trip ⟨⟨2021, 9, 1⟩, 555⟩ (by decide)⟩

lemma millSplit_length_mono (B : Int) (fn : GoStr) (preserved : List GoStr) :
    preserved.length ≤
      (if fn ∈ preserved then preserved else fn :: preserved).length := by
  split <;> simp

lemma millSplit_keep_nil (B : Int) :
    ∀ (files : List LogInfo) (preserved : List GoStr),
      B < (preserved.length : Int) → (millSplit B files preserved).1 = []
  | [], _, _ => rfl
  | f :: rest, preserved, h => by
      simp only [millSplit]
      have hlen := millSplit_length_mono B (logicalName f) preserved
      have h' : B <
          ((if logicalName f ∈ preserved then preserved
            else logicalName f :: preserved).length : Int) := by
        have : (preserved.length : Int) ≤ _ := Int.ofNat_le.mpr hlen
        omega
      rw [if_pos h']
      exact millSplit_keep_nil B rest _ h'

lemma millSplit_distinct (B : Int) :
    ∀ (files : List LogInfo) (preserved : List GoStr),
      distinctFrom preserved ((millSplit B files preserved).1.map logicalName)
        = (distinctFrom preserved (files.map logicalName)).take
            (B.toNat - preserved.length)
  | [], _ => by simp [millSplit, distinctFrom]
  | f :: rest, preserved => by
      simp only [millSplit, List.map_cons]
      by_cases hmem : logicalName f ∈ preserved
      · simp only [if_pos hmem]
        by_cases hlen : B < (preserved.length : Int)
        · rw [if_pos hlen, millSplit_keep_nil B rest preserved hlen]
          have h0 : B.toNat - preserved.length = 0 := by omega
          simp [distinctFrom, hmem, h0]
        · rw [if_neg hlen, List.map_cons]
          simp only [distinctFrom, if_pos hmem]
          exact millSplit_distinct B rest preserved
      · simp only [if_neg hmem]
        by_cases hlen : B < ((logicalName f :: preserved).length : Int)
        · rw [if_pos hlen, millSplit_keep_nil B rest _ hlen]
          have h0 : B.toNat - preserved.length = 0 := by
            simp only [List.length_cons] at hlen
            omega
          simp [distinctFrom, hmem, h0]
        · rw [if_neg hlen, List.map_cons]
          simp only [distinctFrom, if_neg hmem]
          have ih := millSplit_distinct B rest (logicalName f :: preserved)
          rw [ih]
          have htake : B.toNat - preserved.length
              = (B.toNat - (logicalName f :: preserved).length) + 1 := by
            simp only [List.length_cons] at hlen ⊢
            omega
          rw [htake, List.take_succ_cons]

lemma distinctFrom_length_le (seen : List GoStr) :
    ∀ ns : List GoStr, (distinctFrom seen ns).length ≤ ns.length := by
  intro ns
  induction ns generalizing seen with
  | nil => simp [distinctFrom]
  | cons n ns ih =>
      simp only [distinctFrom]
      split
      · exact le_trans (ih seen) (Nat.le_succ _)
      · simpa using Nat.succ_le_succ (ih (n :: seen))

/-- Claim C2: retention bound.  For every directory state, given as the
newest-first sorted list of decoded log files that oldLogFiles produces, and
every positive MaxBackups B, after the deletion step of millRunOnce the
remaining files span at most B distinct logical names (compressed and
uncompressed forms of a file deduplicated by stripping ".gz"), and the
logical names kept are exactly the first B distinct logical names in
newest-first order, i.e. the B most recent logical files. -/
theorem retention_bound (B : Int) (files : List LogInfo) (hB : 0 < B)
    (hsorted : files.Pairwise (fun a b => b.timestamp ≤ a.timestamp)) :
    ((distinctFrom [] ((millRemaining B files).map logicalName)).length : Int)
        ≤ B ∧
      distinctFrom [] ((millRemaining B files).map logicalName)
        = (distinctFrom [] (files.map logicalName)).take B.toNat := by
  unfold millRemaining
  by_cases hc : 0 < B ∧ B < (files.length : Int)
  · rw [if_pos hc]
    have h := millSplit_distinct B files []
    simp only [List.length_nil, Nat.sub_zero] at h
    refine ⟨?_, h⟩
    rw [h]
    have := List.length_take_le B.toNat (distinctFrom [] (files.map logicalName))
    omega
  · rw [if_neg hc]
    have hlen : (files.length : Int) ≤ B := by
      rcases not_and_or.mp hc with h | h
      · omega
      · omega
    have h1 : (distinctFrom [] (files.map logicalName)).length ≤ files.length := by
      simpa using distinctFrom_length_le [] (files.map logicalName)
    refine ⟨by omega, ?_⟩
    rw [List.take_of_length_le]
    omega

/-- Witness for C2: two files of the same logical name plus an older one,
with MaxBackups one. -/
theorem retention_bound_witness :
    (0 : Int) < 1 ∧
      ([⟨['b', '.', 'l', 'o', 'g'], 2⟩,
        ⟨['b', '.', 'l', 'o', 'g', '.', 'g', 'z'], 2⟩,
        ⟨['a', '.', 'l', 'o', 'g'], 1⟩] :
          List LogInfo).Pairwise (fun a b => b.timestamp ≤ a.timestamp) ∧
      (((distinctFrom []
          ((millRemaining 1
            [⟨['b', '.', 'l', 'o', 'g'], 2⟩,
             ⟨['b', '.', 'l', 'o', 'g', '.', 'g', 'z'], 2⟩,
             ⟨['a', '.', 'l', 'o', 'g'], 1⟩]).map logicalName)).length : Int)
          ≤ 1 ∧
        distinctFrom []
            ((millRemaining 1
              [⟨['b', '.', 'l', 'o', 'g'], 2⟩,
               ⟨['b', '.', 'l', 'o', 'g', '.', 'g', 'z'], 2⟩,
               ⟨['a', '.', 'l', 'o', 'g'], 1⟩]).map logicalName)
          = (distinctFrom []
              (([⟨['b', '.', 'l', 'o', 'g'], 2⟩,
                 ⟨['b', '.', 'l', 'o', 'g', '.', 'g', 'z'], 2⟩,
                 ⟨['a', '.', 'l', 'o', 'g'], 1⟩] :
                    List LogInfo).map logicalName)).take (1 : Int).toNat) :=
  ⟨by decide, by decide,
    retention_bound 1 _ (by decide) (by decide)⟩

lemma hasSuffix_append (s t : GoStr) : hasSuffix (s ++ t) t = true := by
  simp [hasSuffix, List.suffix_append]

/-- Claim C3: compression selection.  For every kept (newest-first) file
list with at least two entries, the compression-marking step of millRunOnce
marks exactly the files other than the single most recent one whose names do
not already end in ".gz"; consequently, once the marked files are
compressed, at most one name of the retained set lacks the ".gz" suffix. -/
theorem compression_selection (f0 : LogInfo) (rest : List LogInfo)
    (hne : rest ≠ []) :
    ∃ marks, millCompressMarks (f0 :: rest) = some marks ∧
      (∀ g, g ∈ marks ↔ g ∈ rest ∧ hasSuffix g.name CompressSuffix = false) ∧
      ((f0 :: rest).map (afterMill marks)).countP
          (fun n => !(hasSuffix n CompressSuffix)) ≤ 1 := by
  refine ⟨_, rfl, ?_, ?_⟩
  · intro g
    simp [List.mem_filter]
  · rw [List.map_cons, List.countP_cons]
    have h0 : ((rest.map (afterMill
        (rest.filter fun f => !(hasSuffix f.name CompressSuffix)))).countP
          (fun n => !(hasSuffix n CompressSuffix))) = 0 := by
      rw [List.countP_eq_zero]
      intro a ha
      rw [List.mem_map] at ha
      obtain ⟨g, hg, rfl⟩ := ha
      by_cases hmem :
          g ∈ rest.filter fun f => !(hasSuffix f.name CompressSuffix)
      · simp only [afterMill, if_pos hmem]
        simp [hasSuffix_append]
      · simp only [afterMill, if_neg hmem]
        have hsuf : hasSuffix g.name CompressSuffix = true := by
          by_contra hc
          exact hmem (List.mem_filter.mpr ⟨hg, by simp_all⟩)
        simp [hsuf]
    rw [h0]
    split <;> omega

/-- Witness for C3 at a kept list of three files, the second already
compressed. -/
theorem compression_selection_witness :
    ([⟨['b', '.', 'l', 'o', 'g', '.', 'g', 'z'], 2⟩,
      ⟨['a', '.', 'l', 'o', 'g'], 1⟩] : List LogInfo) ≠ [] ∧
      ∃ marks,
        millCompressMarks
            [⟨['c', '.', 'l', 'o', 'g'], 3⟩,
             ⟨['b', '.', 'l', 'o', 'g', '.', 'g', 'z'], 2⟩,
             ⟨['a', '.', 'l', 'o', 'g'], 1⟩] = some marks ∧
          (∀ g, g ∈ marks ↔
            g ∈ ([⟨['b', '.', 'l', 'o', 'g', '.', 'g', 'z'], 2⟩,
                  ⟨['a', '.', 'l', 'o', 'g'], 1⟩] : List LogInfo) ∧
              hasSuffix g.name CompressSuffix = false) ∧
          (([⟨['c', '.', 'l', 'o', 'g'], 3⟩,
             ⟨['b', '.', 'l', 'o', 'g', '.', 'g', 'z'], 2⟩,
             ⟨['a', '.', 'l', 'o', 'g'], 1⟩] : List LogInfo).map
                (afterMill marks)).countP
              (fun n => !(hasSuffix n CompressSuffix)) ≤ 1 :=
  ⟨by decide,
    compression_selection ⟨['c', '.', 'l', 'o', 'g'], 3⟩ _ (by decide)⟩

lemma runRemoves_spec (fs : Fs) :
    ∀ (l : Logger) (files : List LogInfo) (err : Option GoErr),
      (runRemoves fs l files err).2.2
          = files.map (fun f => MillAction.del f.name) ∧
        (runRemoves fs l files err).2.1
          = firstSome err
              (files.filterMap (fun f => fs.removeErr f.name)).head?
  | l, [], err => by cases err <;> simp [runRemoves, firstSome]
  | l, f :: rest, err => by
      simp only [runRemoves, List.map_cons, List.filterMap_cons]
      have ih := runRemoves_spec fs (dirStep fs l).1 rest
      cases err with
      | some e =>
          cases hr : fs.removeErr f.name <;>
            simp [hr, firstSome, (ih (some e)).1, (ih (some e)).2]
      | none =>
          cases hr : fs.removeErr f.name with
          | none => simp [hr, firstSome, (ih none).1, (ih none).2]
          | some e => simp [hr, firstSome, (ih (some e)).1, (ih (some e)).2]

lemma runCompresses_spec (fs : Fs) :
    ∀ (l : Logger) (files : List LogInfo) (err : Option GoErr),
      (runCompresses fs l files err).2.2
          = files.map (fun f => MillAction.comp f.name) ∧
        (runCompresses fs l files err).2.1
          = firstSome err
              (files.filterMap (fun f => fs.compressErr f.name)).head?
  | l, [], err => by cases err <;> simp [runCompresses, firstSome]
  | l, f :: rest, err => by
      simp only [runCompresses, List.map_cons, List.filterMap_cons]
      have ih := runCompresses_spec fs (dirStep fs l).1 rest
      cases err with
      | some e =>
          cases hr : fs.compressErr f.name <;>
            simp [hr, firstSome, (ih (some e)).1, (ih (some e)).2]
      | none =>
          cases hr : fs.compressErr f.name with
          | none => simp [hr, firstSome, (ih none).1, (ih none).2]
          | some e => simp [hr, firstSome, (ih (some e)).1, (ih (some e)).2]

lemma head_append (xs ys : List GoErr) :
    (xs ++ ys).head? = firstSome xs.head? ys.head? := by
  cases xs <;> rfl

/-- Claim C4: mill pass error policy.  The execution phase of millRunOnce
performs every marked deletion first and then every marked compression, in
order and without skipping any action after a failure, and returns the first
error any action produced, or none when all succeeded. -/
theorem mill_error_policy (fs : Fs) (l : Logger)
    (remove marks : List LogInfo) :
    (millExec fs l remove marks).2.2
        = remove.map (fun f => MillAction.del f.name)
            ++ marks.map (fun f => MillAction.comp f.name) ∧
      (millExec fs l remove marks).2.1
        = (remove.filterMap (fun f => fs.removeErr f.name)
            ++ marks.filterMap (fun f => fs.compressErr f.name)).head? := by
  have hgoal : millExec fs l remove marks
      = ((runCompresses fs (runRemoves fs l remove none).1 marks
            (runRemoves fs l remove none).2.1).1,
         (runCompresses fs (runRemoves fs l remove none).1 marks
            (runRemoves fs l remove none).2.1).2.1,
         (runRemoves fs l remove none).2.2
           ++ (runCompresses fs (runRemoves fs l remove none).1 marks
                 (runRemoves fs l remove none).2.1).2.2) := rfl
  have hr := runRemoves_spec fs l remove none
  have hc := runCompresses_spec fs (runRemoves fs l remove none).1 marks
      (runRemoves fs l remove none).2.1
  rw [hgoal]
  refine ⟨by rw [hr.1, hc.1], ?_⟩
  rw [hc.2, hr.2, head_append]
  rfl

/-- Claim C10 failing input: with compression enabled and a directory scan
that decodes zero log files, millRunOnce reaches files[1:] on an empty Go
slice and panics instead of terminating normally; through the millRun
goroutine this Go runtime panic terminates the whole process. -/
theorem mill_panics_on_empty_scan :
    (millRunOnce emptyScanFs compressingLogger).2 = .panicked := by
  decide

lemma dirStep_fields (fs : Fs) (l : Logger) :
    ((dirStep fs l).1.maxDays = l.maxDays ∧
        (dirStep fs l).1.maxBackups = l.maxBackups ∧
        (dirStep fs l).1.localTime = l.localTime ∧
        (dirStep fs l).1.compress = l.compress ∧
        (dirStep fs l).1.currentFile = l.currentFile ∧
        (dirStep fs l).1.millPending = l.millPending) ∧
      ((dirStep fs l).1.directory = l.directory ∨
        (dirStep fs l).1.directory = DefaultLogDir) ∧
      (dirStep fs l).2 = (dirStep fs l).1.directory := by
  unfold dirStep
  cases fs.stat l.directory <;>
    by_cases hm : fs.mkdirFails l.directory = true <;>
      simp [hm]

/-- Claim C9: directory auto-repair.  dir() keeps a path that exists as a
directory, creates a missing path and keeps it when creation succeeds,
substitutes the hard-coded default directory when creation fails or when the
path exists but is not a directory, and in every case returns a path with no
error, so the directory-repair logic contributes no error to Write's
return. -/
theorem directory_auto_repair (fs : Fs) (l : Logger) :
    (fs.stat l.directory = .notExist → fs.mkdirFails l.directory = false →
        dirStep fs l = (l, l.directory)) ∧
      (fs.stat l.directory = .notExist → fs.mkdirFails l.directory = true →
        dirStep fs l = ({ l with directory := DefaultLogDir }, DefaultLogDir)) ∧
      (fs.stat l.directory = .file →
        dirStep fs l = ({ l with directory := DefaultLogDir }, DefaultLogDir)) ∧
      (fs.stat l.directory = .dir → dirStep fs l = (l, l.directory)) ∧
      (dirStep fs l).2 = (dirStep fs l).1.directory := by
  refine ⟨?_, ?_, ?_, ?_, (dirStep_fields fs l).2.2⟩
  · intro h hm
    simp [dirStep, h, hm]
  · intro h hm
    simp [dirStep, h, hm]
  · intro h
    simp [dirStep, h]
  · intro h
    simp [dirStep, h]

/-- Witness for C9: the bad-path fixture falls back to the default
directory. -/
theorem directory_auto_repair_witness :
    badDirFs.stat badDirLogger.directory = .file ∧
      dirStep badDirFs badDirLogger
        = ({ badDirLogger with directory := DefaultLogDir }, DefaultLogDir) :=
  ⟨rfl, (directory_auto_repair badDirFs badDirLogger).2.2.1 rfl⟩

lemma openNew_spec (fs : Fs) (l : Logger)
    (hok : ∀ p, fs.openCreateTruncErr p = none) :
    (∃ d, (openNew fs l).1.currentFile
        = some (joinPath d (newFileNameBase fs.today))) ∧
      (openNew fs l).2 = none ∧ (openNew fs l).1.millPending = true := by
  refine ⟨⟨(dirStep fs l).2, ?_⟩, ?_, ?_⟩ <;>
    simp [openNew, newFileName, mill, hok]

/-- Claim C5: cold-open decision.  openExistingOrNew surfaces a scan error
without opening anything or signalling the mill; when the scan decodes at
least one file and now minus the newest file's decoded timestamp is strictly
below MaxDays days, that newest file (the head of the newest-first list)
becomes the current file through the append-mode open oracle and the mill is
not signalled; otherwise the current file becomes a newly created file named
after today's date through the truncating create oracle and the mill is
signalled. -/
theorem cold_open_decision (fs : Fs) (l : Logger) :
    (∀ e, fs.scan = .error e →
        (openExistingOrNew fs l).2 = some e ∧
          (openExistingOrNew fs l).1.currentFile = l.currentFile ∧
          (openExistingOrNew fs l).1.millPending = l.millPending) ∧
      (∀ latest rest, fs.scan = .ok (latest :: rest) →
        (latest :: rest).Pairwise (fun a b => b.timestamp ≤ a.timestamp) →
        fs.now - latest.timestamp < l.maxDays * nanosecondPerDay →
        (∀ p, fs.openAppendErr p = none) →
        (∃ d, (openExistingOrNew fs l).1.currentFile
            = some (d ++ latest.name)) ∧
          (openExistingOrNew fs l).2 = none ∧
          (openExistingOrNew fs l).1.millPending = l.millPending ∧
          ∀ g ∈ latest :: rest, g.timestamp ≤ latest.timestamp) ∧
      (∀ files, fs.scan = .ok files →
        (∀ latest, files.head? = some latest →
          l.maxDays * nanosecondPerDay ≤ fs.now - latest.timestamp) →
        (∀ p, fs.openCreateTruncErr p = none) →
        (∃ d, (openExistingOrNew fs l).1.currentFile
            = some (joinPath d (newFileNameBase fs.today))) ∧
          (openExistingOrNew fs l).2 = none ∧
          (openExistingOrNew fs l).1.millPending = true) := by
  have hd1 := dirStep_fields fs l
  refine ⟨?_, ?_, ?_⟩
  · intro e hscan
    simp only [openExistingOrNew, oldLogFiles, hscan]
    exact ⟨trivial, hd1.1.2.2.2.2.1, hd1.1.2.2.2.2.2⟩
  · intro latest rest hscan hsorted hdur hopen
    simp only [openExistingOrNew, oldLogFiles, hscan, hd1.1.1]
    rw [if_pos hdur, hopen]
    have hd2 := dirStep_fields fs (dirStep fs l).1
    dsimp only
    refine ⟨⟨(dirStep fs (dirStep fs l).1).2, rfl⟩, rfl, ?_, ?_⟩
    · show (dirStep fs (dirStep fs l).1).1.millPending = l.millPending
      rw [hd2.1.2.2.2.2.2, hd1.1.2.2.2.2.2]
    · intro g hg
      rcases List.mem_cons.mp hg with h | h
      · exact le_of_eq (congrArg LogInfo.timestamp h)
      · exact (List.pairwise_cons.mp hsorted).1 g h
  · intro files hscan hstale hok
    cases files with
    | nil =>
        simp only [openExistingOrNew, oldLogFiles, hscan]
        exact openNew_spec fs (dirStep fs l).1 hok
    | cons latest rest =>
        have hge := hstale latest rfl
        simp only [openExistingOrNew, oldLogFiles, hscan, hd1.1.1]
        rw [if_neg (by omega)]
        exact openNew_spec fs (dirStep fs l).1 hok

/-- Witness for C5: on the benign fixture with no file open, the decoded
file of the first of September 2021 is one nanosecond old and is reopened
for append. -/
theorem cold_open_decision_witness :
    okFs.scan = .ok [⟨['2', '0', '2', '1', '-', '0', '9', '-', '0', '1',
        '.', 'l', 'o', 'g'], 5⟩] ∧
      ∃ d, (openExistingOrNew okFs idleLogger).1.currentFile
        = some (d ++ ['2', '0', '2', '1', '-', '0', '9', '-', '0', '1',
            '.', 'l', 'o', 'g']) :=
  ⟨rfl,
    ((cold_open_decision okFs idleLogger).2.1
        ⟨['2', '0', '2', '1', '-', '0', '9', '-', '0', '1',
          '.', 'l', 'o', 'g'], 5⟩ [] rfl (by decide) (by decide)
        (fun _ => rfl)).1⟩

/-- Claim C6: no per-write rotation.  A Write call on a logger whose current
file handle is non-nil leaves the whole state unchanged — in particular it
never closes or replaces the handle — and forwards the payload to that very
file; hence any sequence of Write calls keeps the same file open until Close
is called. -/
theorem no_per_write_rotation (l : Logger) (f : GoStr)
    (h : l.currentFile = some f) :
    (∀ fs, (write fs l).1 = l ∧ (write fs l).2 = fs.writeRes f) ∧
      ∀ fss, writeMany fss l = l ∧ (writeMany fss l).currentFile = some f := by
  have hw : ∀ fs, (write fs l).1 = l ∧ (write fs l).2 = fs.writeRes f := by
    intro fs
    simp [write, h]
  refine ⟨hw, ?_⟩
  intro fss
  induction fss with
  | nil => exact ⟨rfl, h⟩
  | cons fs rest ih =>
      have : writeMany (fs :: rest) l = writeMany rest l := by
        simp [writeMany, (hw fs).1]
      rw [this]
      exact ih

/-- Witness for C6 at the open-file fixture and two consecutive writes. -/
theorem no_per_write_rotation_witness :
    okLogger.currentFile = some (['a', '.', 'l', 'o', 'g']) ∧
      writeMany [okFs, okFs] okLogger = okLogger :=
  ⟨rfl,
    ((no_per_write_rotation okLogger (['a', '.', 'l', 'o', 'g']) rfl).2
      [okFs, okFs]).1⟩

/-- Claim C7: Close idempotence.  After any Close the current file handle is
nil; a Close finding no open file (in particular any second consecutive
Close) returns nil and changes nothing; and Close neither clears a pending
mill signal nor touches any other part of the state beyond the file
handle. -/
theorem close_idempotent (fs fs' : Fs) (l : Logger) :
    (closeLogger fs l).1.currentFile = none ∧
      (l.currentFile = none → closeLogger fs l = (l, none)) ∧
      closeLogger fs' (closeLogger fs l).1 = ((closeLogger fs l).1, none) ∧
      (closeLogger fs l).1.millPending = l.millPending ∧
      (closeLogger fs l).1.directory = l.directory := by
  cases h : l.currentFile <;> simp [closeLogger, h]

/-- Witness for C7: closing the idle fixture returns nil and is the
identity. -/
theorem close_idempotent_witness :
    closeLogger okFs idleLogger = (idleLogger, none) :=
  (close_idempotent okFs okFs idleLogger).2.1 rfl

lemma configPreserved_refl (l : Logger) : configPreserved l l :=
  ⟨rfl, rfl, rfl, rfl, Or.inl rfl⟩

lemma configPreserved_trans {a b c : Logger} (h1 : configPreserved a b)
    (h2 : configPreserved b c) : configPreserved a c := by
  obtain ⟨d1, d2, d3, d4, d5⟩ := h1
  obtain ⟨e1, e2, e3, e4, e5⟩ := h2
  refine ⟨by rw [e1, d1], by rw [e2, d2], by rw [e3, d3], by rw [e4, d4], ?_⟩
  rcases e5 with e5 | e5
  · rw [e5]; exact d5
  · exact Or.inr e5

lemma dirStep_preserves (fs : Fs) (l : Logger) :
    configPreserved l (dirStep fs l).1 := by
  have h := dirStep_fields fs l
  exact ⟨h.1.1, h.1.2.1, h.1.2.2.1, h.1.2.2.2.1, h.2.1⟩

lemma update_currentFile_preserves (x : Logger) (v : Option GoStr) :
    configPreserved x { x with currentFile := v } :=
  ⟨rfl, rfl, rfl, rfl, Or.inl rfl⟩

lemma mill_preserves (x : Logger) : configPreserved x (mill x) :=
  ⟨rfl, rfl, rfl, rfl, Or.inl rfl⟩

lemma openNew_preserves (fs : Fs) (l : Logger) :
    configPreserved l (openNew fs l).1 := by
  simp only [openNew, newFileName]
  cases fs.openCreateTruncErr
      (joinPath (dirStep fs l).2 (newFileNameBase fs.today)) with
  | none =>
      exact configPreserved_trans (dirStep_preserves fs l)
        (configPreserved_trans (update_currentFile_preserves _ _)
          (mill_preserves _))
  | some e => exact dirStep_preserves fs l

lemma openExistingOrNew_preserves (fs : Fs) (l : Logger) :
    configPreserved l (openExistingOrNew fs l).1 := by
  simp only [openExistingOrNew, oldLogFiles]
  cases fs.scan with
  | error e => exact dirStep_preserves fs l
  | ok files =>
      cases files with
      | nil =>
          exact configPreserved_trans (dirStep_preserves fs l)
            (openNew_preserves fs _)
      | cons latest rest =>
          dsimp only
          split
          · cases fs.openAppendErr
                ((dirStep fs (dirStep fs l).1).2 ++ latest.name) with
            | none =>
                exact configPreserved_trans (dirStep_preserves fs l)
                  (configPreserved_trans (dirStep_preserves fs _)
                    (update_currentFile_preserves _ _))
            | some e =>
                exact configPreserved_trans (dirStep_preserves fs l)
                  (dirStep_preserves fs _)
          · exact configPreserved_trans (dirStep_preserves fs l)
              (openNew_preserves fs _)

lemma write_preserves (fs : Fs) (l : Logger) :
    configPreserved l (write fs l).1 := by
  unfold write
  cases l.currentFile with
  | some f => exact configPreserved_refl l
  | none =>
      dsimp only
      cases (openExistingOrNew fs l).2 with
      | some e => exact openExistingOrNew_preserves fs l
      | none =>
          dsimp only
          cases (openExistingOrNew fs l).1.currentFile with
          | some f => exact openExistingOrNew_preserves fs l
          | none => exact openExistingOrNew_preserves fs l

lemma closeLogger_preserves (fs : Fs) (l : Logger) :
    configPreserved l (closeLogger fs l).1 ∧
      (closeLogger fs l).1.directory = l.directory := by
  unfold closeLogger
  cases l.currentFile with
  | none => exact ⟨configPreserved_refl l, rfl⟩
  | some f => exact ⟨⟨rfl, rfl, rfl, rfl, Or.inl rfl⟩, rfl⟩

lemma runRemoves_preserves (fs : Fs) :
    ∀ (l : Logger) (files : List LogInfo) (err : Option GoErr),
      configPreserved l (runRemoves fs l files err).1
  | l, [], err => configPreserved_refl l
  | l, f :: rest, err => by
      simp only [runRemoves]
      exact configPreserved_trans (dirStep_preserves fs l)
        (runRemoves_preserves fs (dirStep fs l).1 rest _)

lemma runCompresses_preserves (fs : Fs) :
    ∀ (l : Logger) (files : List LogInfo) (err : Option GoErr),
      configPreserved l (runCompresses fs l files err).1
  | l, [], err => configPreserved_refl l
  | l, f :: rest, err => by
      simp only [runCompresses]
      exact configPreserved_trans (dirStep_preserves fs l)
        (runCompresses_preserves fs (dirStep fs l).1 rest _)

lemma millExec_preserves (fs : Fs) (l : Logger)
    (remove marks : List LogInfo) :
    configPreserved l (millExec fs l remove marks).1 := by
  unfold millExec
  exact configPreserved_trans (runRemoves_preserves fs l remove none)
    (runCompresses_preserves fs _ marks _)

lemma millRunOnce_preserves (fs : Fs) (l : Logger) :
    configPreserved l (millRunOnce fs l).1 := by
  unfold millRunOnce
  split
  · exact configPreserved_refl l
  · simp only [oldLogFiles]
    cases fs.scan with
    | error e => exact dirStep_preserves fs l
    | ok files =>
        dsimp only
        split
        · split
          · exact dirStep_preserves fs l
          · exact configPreserved_trans (dirStep_preserves fs l)
              (millExec_preserves fs _ _ _)
        · exact configPreserved_trans (dirStep_preserves fs l)
            (millExec_preserves fs _ _ _)

/-- Claim C8 counterexample: a Write on a logger whose configured Directory
exists but is not a directory mutates the Directory configuration field (to
the default directory), so the configuration is not unchanged by every
operation. -/
theorem config_immutability_counterexample :
    (write badDirFs badDirLogger).1.directory ≠ badDirLogger.directory := by
  decide

/-- Claim C8 (amended): Write, Close and a mill pass never change the
MaxDays, MaxBackups, LocalTime and Compress configuration fields, and the
Directory field is either unchanged or replaced by the hard-coded default
directory through the dir() auto-repair; Close changes no configuration
field at all, Directory included. -/
theorem config_immutability_amended (fs : Fs) (l : Logger) :
    configPreserved l (write fs l).1 ∧
      configPreserved l (closeLogger fs l).1 ∧
      configPreserved l (millRunOnce fs l).1 ∧
      (closeLogger fs l).1.directory = l.directory :=
  ⟨write_preserves fs l, (closeLogger_preserves fs l).1,
    millRunOnce_preserves fs l, (closeLogger_preserves fs l).2⟩

end EasyLogger
